import Mathlib

/-!
Shallow embedding of the mterm character-grid compositing engine
(src/present.rs), the font loader (src/builder.rs) and the redraw logic of
the frame loop (src/main_loop.rs).

Machine-integer conventions: Rust `usize` values are modelled as `Nat` with
wrapping arithmetic modulo 2^64 where the source can overflow (release-mode
semantics); Rust `i32` values are modelled as `Int` with wrapping into
[-2^31, 2^31) where the source can overflow.  A Rust panic (out-of-range
slice index, `copy_from_slice` length mismatch, out-of-range byte index) is
modelled by returning `none`; partially-mutated states at a panic are
collapsed into `none`.
-/

set_option autoImplicit false

namespace MTerm

/-- Modulus of Rust `usize` arithmetic. -/
def USIZE : Nat := 18446744073709551616

/-- Modulus of Rust `i32` arithmetic, as an integer. -/
def I32MOD : Int := 4294967296

/-- 2^31, the magnitude bound of `i32`. -/
def I32HALF : Int := 2147483648

/-- Rust cast `x as usize` applied to an `i32` value: sign-extend and
reinterpret, i.e. reduce modulo 2^64 into [0, 2^64). -/
def i32_as_usize (x : Int) : Nat := (x % (USIZE : Int)).toNat

/-- Rust cast `n as i32` applied to a `usize` value: truncate modulo 2^32 and
reinterpret as a signed 32-bit value. -/
def usize_as_i32 (n : Nat) : Int :=
  if (n : Int) % I32MOD < I32HALF then (n : Int) % I32MOD
  else (n : Int) % I32MOD - I32MOD

/-- Wrap an unbounded integer into the `i32` range (release-mode overflow
semantics of `i32` addition/subtraction/multiplication). -/
def i32_wrap (x : Int) : Int :=
  if x % I32MOD < I32HALF then x % I32MOD else x % I32MOD - I32MOD

/-- Wrapping `usize` addition (release-mode). -/
def usize_add (a b : Nat) : Nat := (a + b) % USIZE

/-- Wrapping `usize` subtraction (release-mode). -/
def usize_sub (a b : Nat) : Nat := (((a : Int) - (b : Int)) % (USIZE : Int)).toNat

/-- Wrapping `usize` multiplication (release-mode). -/
def usize_mul (a b : Nat) : Nat := (a * b) % USIZE

/-- `Char` from src/present.rs: one ASCII character with ink and paper
colours.  `ch` is a `u8`, colours are opaque `u32` values; all are modelled
as `Nat` since no arithmetic is performed on them. -/
structure Char where
  ch : Nat
  ink : Nat
  paper : Nat
deriving DecidableEq, Repr

/-- `Image` from src/present.rs: a width×height grid stored as three
parallel row-major arrays. -/
structure Image where
  width : Nat
  height : Nat
  fore_image : List Nat
  back_image : List Nat
  text_image : List Nat
deriving DecidableEq, Repr

/-- `PresentInput` from src/app.rs: the live frame buffer handed to the
application, same shape as `Image`. -/
structure PresentInput where
  width : Nat
  height : Nat
  fore_image : List Nat
  back_image : List Nat
  text_image : List Nat
deriving DecidableEq, Repr

/-- `Image::new`: three zero-filled arrays of length `width * height`
(the multiplication is `usize` arithmetic). -/
def Image.new (width height : Nat) : Image :=
  let size := usize_mul width height
  ⟨width, height, List.replicate size 0, List.replicate size 0, List.replicate size 0⟩

/-- `Image::coords_to_index`: row-major index, defined only in bounds. -/
def Image.coords_to_index (img : Image) (x y : Nat) : Option Nat :=
  if x < img.width ∧ y < img.height then
    some (usize_add (usize_mul y img.width) x)
  else
    none

/-- `Image::clip`: clamp an anchored rectangle to the image bounds.  The
`width += x as usize` and `self.width - x` steps use wrapping `usize`
arithmetic exactly as the source does in release mode. -/
def Image.clip (img : Image) (px py : Int) (width height : Nat) :
    Nat × Nat × Nat × Nat :=
  let width := if px < 0 then usize_add width (i32_as_usize px) else width
  let x : Int := if px < 0 then 0 else px
  let height := if py < 0 then usize_add height (i32_as_usize py) else height
  let y : Int := if py < 0 then 0 else py
  let x := i32_as_usize x
  let y := i32_as_usize y
  let width := min width (usize_sub img.width x)
  let height := min height (usize_sub img.height y)
  (x, y, width, height)

/-- Write `value` into `n` consecutive cells of `v` starting at index `i`
(models `v[i..i+n].iter_mut().for_each(|x| *x = value)`; bounds are checked
by the callers, as the source's slice indexing does). -/
def setRun : List Nat → Nat → Nat → Nat → List Nat
  | v, _, 0, _ => v
  | v, i, n + 1, value => setRun (v.set i value) (i + 1) n value

/-- Write the elements of `bytes` into consecutive cells of `v` starting at
index `i` (models the byte-indexed loop of `draw_string`). -/
def writeRun : List Nat → Nat → List Nat → List Nat
  | v, _, [] => v
  | v, i, b :: rest => writeRun (v.set i b) (i + 1) rest

/-- `Image::draw_char`: write one cell when the point is in bounds, silently
do nothing otherwise.  The three indexed assignments panic if the index is
outside an array (possible only when the length invariant is broken). -/
def Image.draw_char (img : Image) (px py : Int) (c : Char) : Option Image :=
  if 0 ≤ px ∧ 0 ≤ py then
    match img.coords_to_index (i32_as_usize px) (i32_as_usize py) with
    | some i =>
      if i < img.fore_image.length ∧ i < img.back_image.length ∧
          i < img.text_image.length then
        some { img with
          fore_image := img.fore_image.set i c.ink,
          back_image := img.back_image.set i c.paper,
          text_image := img.text_image.set i c.ch }
      else none
    | none => some img
  else some img

/-- `Image::draw_string`: clip a 1-row run of `text.length` cells, then
write ink/paper over the clipped width and copy the first `w` bytes of the
text.  The slice operations panic when `i + w` exceeds an array length and
the byte indexing panics when `w` exceeds the text length. -/
def Image.draw_string (img : Image) (px py : Int) (text : List Nat)
    (ink paper : Nat) : Option Image :=
  match img.clip px py text.length 1 with
  | (x, y, w, _) =>
    match img.coords_to_index x y with
    | some i =>
      if i + w ≤ img.fore_image.length ∧ i + w ≤ img.back_image.length ∧
          i + w ≤ img.text_image.length ∧ w ≤ text.length then
        some { img with
          fore_image := setRun img.fore_image i w ink,
          back_image := setRun img.back_image i w paper,
          text_image := writeRun img.text_image i (text.take w) }
      else none
    | none => some img

/-- The row loop of `Image::draw_rect_filled`: fill `rows` rows of `w` cells
each, starting at index `i`, advancing by `stride` per row.  Each row's
slice operations panic unless the (wrapped) end index is well-formed. -/
def fillRows : Nat → List Nat → List Nat → List Nat → Nat → Nat → Nat →
    Char → Option (List Nat × List Nat × List Nat)
  | 0, f, b, t, _, _, _, _ => some (f, b, t)
  | rows + 1, f, b, t, i, stride, w, c =>
    let e := usize_add i w
    if i ≤ e ∧ e ≤ f.length ∧ e ≤ b.length ∧ e ≤ t.length then
      fillRows rows (setRun f i w c.ink) (setRun b i w c.paper)
        (setRun t i w c.ch) (usize_add i stride) stride w c
    else none

/-- `Image::draw_rect_filled`: clip, then row-by-row fill. -/
def Image.draw_rect_filled (img : Image) (px py : Int) (width height : Nat)
    (c : Char) : Option Image :=
  match img.clip px py width height with
  | (x, y, width, height) =>
    match img.coords_to_index x y with
    | some i =>
      match fillRows height img.fore_image img.back_image img.text_image i
          img.width width c with
      | some (f, b, t) =>
        some { img with fore_image := f, back_image := b, text_image := t }
      | none => none
    | none => some img

/-- `Image::clear`: fill the whole image with a space character. -/
def Image.clear (img : Image) (ink paper : Nat) : Option Image :=
  img.draw_rect_filled 0 0 img.width img.height ⟨32, ink, paper⟩

/-- `Image::draw_rect`: four one-cell-thick edges via `draw_rect_filled`;
degenerate sizes fall through to a single filled rectangle.  The corner
coordinates are computed in (wrapping) `i32` arithmetic. -/
def Image.draw_rect (img : Image) (px py : Int) (width height : Nat)
    (c : Char) : Option Image :=
  if width < 3 ∨ height < 3 then
    img.draw_rect_filled px py width height c
  else
    (img.draw_rect_filled px py width 1 c).bind fun img1 =>
    (img1.draw_rect_filled px
      (i32_wrap (i32_wrap (py + usize_as_i32 height) - 1)) width 1 c).bind fun img2 =>
    (img2.draw_rect_filled px (i32_wrap (py + 1)) 1 (height - 2) c).bind fun img3 =>
    img3.draw_rect_filled
      (i32_wrap (i32_wrap (px + usize_as_i32 width) - 1))
      (i32_wrap (py + 1)) 1 (height - 2) c

/-- `BlitRect` from src/present.rs; `BlitRect::new` truncates the `usize`
sizes with `as i32`. -/
structure BlitRect where
  x : Int
  y : Int
  w : Int
  h : Int
deriving DecidableEq, Repr

def BlitRect.new (x y : Int) (width height : Nat) : BlitRect :=
  ⟨x, y, usize_as_i32 width, usize_as_i32 height⟩

/-- `BlitOps` from src/present.rs. -/
structure BlitOps where
  src : BlitRect
  dst : BlitRect
  src_blit : BlitRect
  dst_blit : BlitRect
deriving DecidableEq, Repr

/-- Copy `n` cells of `src` starting at `si` into `dst` starting at `di`
(models one row's `copy_from_slice`; bounds are checked by the caller). -/
def copyRun : List Nat → List Nat → Nat → Nat → Nat → List Nat
  | _, dst, _, _, 0 => dst
  | src, dst, si, di, n + 1 =>
    copyRun src (dst.set di (src.getD si 0)) (si + 1) (di + 1) n

/-- The row loop of `blit`: copy `rows` rows of `width` cells, advancing the
source index by `sw` and the destination index by `dw` per row.  The slice
expressions `src[si as usize..(si+width) as usize]` and the matching
destination slice panic unless start ≤ end ≤ length after the `as usize`
casts; `copy_from_slice` additionally panics when the two slice lengths
differ. -/
def blitRows : Nat → List Nat → List Nat → Int → Int → Int → Int → Int →
    Option (List Nat)
  | 0, _, dst, _, _, _, _, _ => some dst
  | rows + 1, src, dst, si, di, width, sw, dw =>
    let a := i32_as_usize si
    let b := i32_as_usize (i32_wrap (si + width))
    let c := i32_as_usize di
    let d := i32_as_usize (i32_wrap (di + width))
    if a ≤ b ∧ b ≤ src.length ∧ c ≤ d ∧ d ≤ dst.length ∧ b - a = d - c then
      blitRows rows src (copyRun src dst a c (d - c))
        (i32_wrap (si + sw)) (i32_wrap (di + dw)) width sw dw
    else none

/-- One axis of the clipping prologue of `blit` (src/present.rs lines
228-263); the source runs the same block once for x and once for y with no
dependency between the axes.  Arguments: source blit start `s0` and extent
`sw0`, destination blit start `d0` and extent `dw0`, and the full source
canvas extent `full`.  Returns the adjusted source start, destination
start, and copied extent:
`if s0 < 0 { sw0 += d0; dw0 += d0; d0 -= d0; s0 = 0; }` then
`if s0 + sw0 > full { sw0 = full - s0; }` then `extent = min(sw0, dw0)`. -/
def blitAxis (s0 sw0 d0 dw0 full : Int) : Int × Int × Int :=
  let sw1 := if s0 < 0 then i32_wrap (sw0 + d0) else sw0
  let dw1 := if s0 < 0 then i32_wrap (dw0 + d0) else dw0
  let d1 := if s0 < 0 then 0 else d0
  let s1 := if s0 < 0 then 0 else s0
  let sw2 := if i32_wrap (s1 + sw1) > full then i32_wrap (full - s1) else sw1
  (s1, d1, min sw2 dw1)

/-- The free function `blit` from src/present.rs, for one array.  All scalar
arithmetic is `i32` with release-mode wrapping. -/
def blit (src dst : List Nat) (ops : BlitOps) : Option (List Nat) :=
  let rx := blitAxis ops.src_blit.x ops.src_blit.w ops.dst_blit.x
    ops.dst_blit.w ops.src.w
  let ry := blitAxis ops.src_blit.y ops.src_blit.h ops.dst_blit.y
    ops.dst_blit.h ops.src.h
  if 0 < rx.2.2 ∧ 0 < ry.2.2 then
    -- `si = sy * ops.src.w + sx; di = dy * ops.dst.w + dx;`
    blitRows ry.2.2.toNat src dst
      (i32_wrap (i32_wrap (ry.1 * ops.src.w) + rx.1))
      (i32_wrap (i32_wrap (ry.2.1 * ops.dst.w) + rx.2.1))
      rx.2.2 ops.src.w ops.dst.w
  else
    some dst

/-- `PresentInput::blit`: build the `BlitOps` and blit all three arrays in
order (a panic in an earlier array stops the whole operation). -/
def PresentInput.blit (p : PresentInput) (px py : Int)
    (dst_width dst_height : Nat) (image : Image) : Option PresentInput :=
  let ops : BlitOps :=
    ⟨BlitRect.new 0 0 image.width image.height,
     BlitRect.new 0 0 p.width p.height,
     BlitRect.new 0 0 image.width image.height,
     BlitRect.new px py dst_width dst_height⟩
  (MTerm.blit image.fore_image p.fore_image ops).bind fun f =>
  (MTerm.blit image.back_image p.back_image ops).bind fun b =>
  (MTerm.blit image.text_image p.text_image ops).bind fun t =>
  some { p with fore_image := f, back_image := b, text_image := t }

/-- `PresentInput::blit_screen`: blit at the origin with the destination's
own size. -/
def PresentInput.blit_screen (p : PresentInput) (image : Image) :
    Option PresentInput :=
  p.blit 0 0 p.width p.height image

/-- `FontData` from src/builder.rs. -/
structure FontData where
  data : List Nat
  width : Nat
  height : Nat
deriving DecidableEq, Repr

/-- `Error::BadFont` from src/lib.rs (the only error `load_font_image`
produces). -/
inductive FontError where
  | badFont
deriving DecidableEq, Repr

/-- `load_font_image` from src/builder.rs.  The external image decoder
(`image::load_from_memory_with_format` plus the RGBA conversion) is
abstracted as its outcome: `none` when the bytes cannot be decoded, or
`some (w, h, pixels)` for a decoded image of pixel dimensions w×h.  The
cell dimensions are `u32` integer division by 16. -/
def load_font_image (decoded : Option (Nat × Nat × List Nat)) :
    Except FontError FontData :=
  match decoded with
  | none => Except.error FontError.badFont
  | some (w, h, data) =>
    if w / 16 = 0 ∨ h / 16 = 0 then Except.error FontError.badFont
    else Except.ok ⟨data, w / 16, h / 16⟩

/-- `PresentResult` from src/app.rs. -/
inductive PresentResult where
  | Changed
  | NoChanges
deriving DecidableEq, Repr

/-- The outcome of `RenderState::render()` as matched by the
`RedrawRequested` arm in src/main_loop.rs: success, a recoverable
`SwapChainError::Lost`, a fatal `SwapChainError::OutOfMemory`, or any other
error (merely printed). -/
inductive RenderOutcome where
  | ok
  | lost
  | outOfMemory
  | other
deriving DecidableEq, Repr

/-- `winit` control flow as set by the loop: keep polling or exit. -/
inductive ControlFlow where
  | Poll
  | Exit
deriving DecidableEq, Repr

/-- The body of the `Event::RedrawRequested` arm of `run_internal`
(src/main_loop.rs): `render.render()` runs exactly when the application's
present step returned `Changed`.  Returns the number of `render()`
invocations this event performs together with the resulting control flow
(`Exit` exactly on a fatal out-of-memory render failure). -/
def redraw_requested (pr : PresentResult) (outcome : RenderOutcome) :
    Nat × ControlFlow :=
  match pr with
  | PresentResult.Changed =>
    (1,
     match outcome with
     | RenderOutcome.outOfMemory => ControlFlow.Exit
     | _ => ControlFlow.Poll)
  | PresentResult.NoChanges => (0, ControlFlow.Poll)

/-- Total number of `render()` invocations performed by the redraw events
of scheduler iterations `a, a+1, ..., a+n-1`, where `pr i` is the
application's present result and `outcome i` the renderer's outcome at
iteration `i` (each iteration issues exactly one `request_redraw`, hence
one `RedrawRequested` event). -/
def span_renders (pr : Nat → PresentResult) (outcome : Nat → RenderOutcome)
    (a : Nat) : Nat → Nat
  | 0 => 0
  | n + 1 =>
    span_renders pr outcome a n + (redraw_requested (pr (a + n)) (outcome (a + n))).1

/-- The shape data of an image that no drawing operation may change:
its dimensions and the lengths of its three arrays. -/
def Image.shape (img : Image) : Nat × Nat × Nat × Nat × Nat :=
  (img.width, img.height, img.fore_image.length, img.back_image.length,
   img.text_image.length)

/-- The shape data of a frame buffer. -/
def PresentInput.shape (p : PresentInput) : Nat × Nat × Nat × Nat × Nat :=
  (p.width, p.height, p.fore_image.length, p.back_image.length,
   p.text_image.length)

/-- The documented buffer invariant: all three arrays have length
`width * height`. -/
def Image.wf (img : Image) : Prop :=
  img.fore_image.length = img.width * img.height ∧
  img.back_image.length = img.width * img.height ∧
  img.text_image.length = img.width * img.height

/-- The same invariant for the frame buffer. -/
def PresentInput.wf (p : PresentInput) : Prop :=
  p.fore_image.length = p.width * p.height ∧
  p.back_image.length = p.width * p.height ∧
  p.text_image.length = p.width * p.height

/-- The top-left W×H sub-grid of a row-major array of row stride `SW`:
cell `j = y*W + x` of the result is cell `y*SW + x` of `l`.  This is the
expected destination contents when blitting a source larger than the
destination. -/
def topLeftGrid (W H SW : Nat) (l : List Nat) : List Nat :=
  (List.range (H * W)).map (fun j => l.getD (j / W * SW + j % W) 0)

/-- The 10×10 buffer expected after drawing a 2×2 rectangle with
`Char ⟨9, 5, 6⟩` at the origin on a fresh buffer: exactly the four cells
with `x < 2 ∧ y < 2` are set, all others keep their zero initialisation. -/

def borderDegenerate : Image :=
  ⟨10, 10,
   (List.range 100).map (fun i => if i % 10 < 2 ∧ i / 10 < 2 then 5 else 0),
   (List.range 100).map (fun i => if i % 10 < 2 ∧ i / 10 < 2 then 6 else 0),
   (List.range 100).map (fun i => if i % 10 < 2 ∧ i / 10 < 2 then 9 else 0)⟩

end MTerm

/-! ## Helper lemmas -/

namespace MTerm

theorem i32_as_usize_coe {n : Nat} (h : n < USIZE) : i32_as_usize (n : Int) = n := by
  simp only [i32_as_usize, USIZE] at *
  omega

theorem i32_as_usize_toNat {x : Int} (h0 : 0 ≤ x) (h1 : x < (USIZE : Int)) :
    i32_as_usize x = x.toNat := by
  simp only [i32_as_usize, USIZE] at *
  omega

theorem usize_as_i32_eq_of_lt {n : Nat} (h : n < 2147483648) : usize_as_i32 n = n := by
  simp only [usize_as_i32, I32MOD, I32HALF]
  omega

theorem usize_as_i32_lb (n : Nat) : -I32HALF ≤ usize_as_i32 n := by
  simp only [usize_as_i32, I32MOD, I32HALF]
  omega

theorem usize_as_i32_ub (n : Nat) : usize_as_i32 n < I32HALF := by
  simp only [usize_as_i32, I32MOD, I32HALF]
  omega

theorem i32_wrap_id {x : Int} (h0 : -I32HALF ≤ x) (h1 : x < I32HALF) :
    i32_wrap x = x := by
  simp only [i32_wrap, I32MOD, I32HALF] at *
  omega

theorem i32_wrap_coe {n : Nat} (h : n < 2147483648) : i32_wrap (n : Int) = n := by
  simp only [i32_wrap, I32MOD, I32HALF]
  omega

theorem usize_add_eq {a b : Nat} (h : a + b < USIZE) : usize_add a b = a + b := by
  simp only [usize_add, USIZE] at *
  omega

theorem usize_sub_eq {a b : Nat} (hba : b ≤ a) (ha : a < USIZE) :
    usize_sub a b = a - b := by
  simp only [usize_sub, USIZE] at *
  omega

theorem usize_mul_eq {a b : Nat} (h : a * b < USIZE) : usize_mul a b = a * b := by
  simp only [usize_mul]
  exact Nat.mod_eq_of_lt h

theorem setRun_length : ∀ (n : Nat) (v : List Nat) (i a : Nat),
    (setRun v i n a).length = v.length := by
  intro n
  induction n with
  | zero => intro v i a; rfl
  | succ n ih =>
    intro v i a
    show (setRun (v.set i a) (i + 1) n a).length = v.length
    rw [ih, List.length_set]

theorem writeRun_length : ∀ (bs : List Nat) (v : List Nat) (i : Nat),
    (writeRun v i bs).length = v.length := by
  intro bs
  induction bs with
  | nil => intro v i; rfl
  | cons b rest ih =>
    intro v i
    show (writeRun (v.set i b) (i + 1) rest).length = v.length
    rw [ih, List.length_set]

theorem copyRun_length : ∀ (n : Nat) (src dst : List Nat) (si di : Nat),
    (copyRun src dst si di n).length = dst.length := by
  intro n
  induction n with
  | zero => intro src dst si di; rfl
  | succ n ih =>
    intro src dst si di
    show (copyRun src (dst.set di (src.getD si 0)) (si + 1) (di + 1) n).length = dst.length
    rw [ih, List.length_set]

theorem copyRun_getElem? : ∀ (n : Nat) (src dst : List Nat) (si di : Nat),
    si + n ≤ src.length → di + n ≤ dst.length → ∀ j : Nat,
    (copyRun src dst si di n)[j]? =
      if di ≤ j ∧ j < di + n then src[si + (j - di)]? else dst[j]? := by
  intro n
  induction n with
  | zero =>
    intro src dst si di _ _ j
    rw [if_neg (by omega)]
    rfl
  | succ n ih =>
    intro src dst si di hs hd j
    have hsi : si < src.length := by omega
    have hdi : di < dst.length := by omega
    show (copyRun src (dst.set di (src.getD si 0)) (si + 1) (di + 1) n)[j]? = _
    rw [ih src (dst.set di (src.getD si 0)) (si + 1) (di + 1)
      (by omega) (by rw [List.length_set]; omega) j]
    by_cases hin : di ≤ j ∧ j < di + (n + 1)
    · rw [if_pos hin]
      by_cases hj : di + 1 ≤ j ∧ j < di + 1 + n
      · rw [if_pos hj]
        congr 1
        omega
      · rw [if_neg hj]
        have hji : j = di := by omega
        subst hji
        rw [List.getElem?_set_self hdi]
        have : si + (j - j) = si := by omega
        rw [this, List.getD_eq_getElem?_getD, List.getElem?_eq_getElem hsi]
        rfl
    · rw [if_neg hin, if_neg (by omega), List.getElem?_set_ne (by omega)]

end MTerm

namespace MTerm

theorem blitRows_length : ∀ (rows : Nat) (src dst : List Nat)
    (si di w sw dw : Int) (res : List Nat),
    blitRows rows src dst si di w sw dw = some res → res.length = dst.length := by
  intro rows
  induction rows with
  | zero =>
    intro src dst si di w sw dw res h
    injection h with h
    rw [← h]
  | succ n ih =>
    intro src dst si di w sw dw res h
    simp only [blitRows] at h
    split at h
    · have := ih src _ _ _ _ _ _ res h
      rw [this, copyRun_length]
    · exact absurd h (by simp)

theorem blitRows_tile : ∀ (n : Nat) (src dst : List Nat) (so dofs W SW : Nat),
    0 < W → W ≤ SW →
    so + n * SW ≤ src.length → dofs + n * W ≤ dst.length →
    src.length < 2147483648 → dst.length < 2147483648 →
    ∃ res,
      blitRows n src dst (so : Int) (dofs : Int) (W : Int) (SW : Int) (W : Int) =
        some res ∧
      res.length = dst.length ∧
      ∀ j : Nat, res[j]? =
        if dofs ≤ j ∧ j < dofs + n * W
        then src[so + ((j - dofs) / W) * SW + (j - dofs) % W]?
        else dst[j]? := by
  intro n
  induction n with
  | zero =>
    intro src dst so dofs W SW hW hWSW hs hd hsl hdl
    refine ⟨dst, rfl, rfl, ?_⟩
    intro j
    rw [if_neg (by omega)]
  | succ n ih =>
    intro src dst so dofs W SW hW hWSW hs hd hsl hdl
    have e1 : (n + 1) * SW = n * SW + SW := by ring
    have e2 : (n + 1) * W = n * W + W := by ring
    have hrow_s : so + W ≤ src.length := by omega
    have hrow_d : dofs + W ≤ dst.length := by omega
    have hsoW : so + W < 2147483648 := by omega
    have hdoW : dofs + W < 2147483648 := by omega
    have hsoSW : so + SW < 2147483648 := by omega
    have hcast1 : ((so : Int) + (W : Int)) = ((so + W : Nat) : Int) := by push_cast; ring
    have hcast2 : ((dofs : Int) + (W : Int)) = ((dofs + W : Nat) : Int) := by push_cast; ring
    have hcast3 : ((so : Int) + (SW : Int)) = ((so + SW : Nat) : Int) := by push_cast; ring
    have hstep : blitRows (n + 1) src dst (so : Int) (dofs : Int) (W : Int) (SW : Int) (W : Int) =
        blitRows n src (copyRun src dst so dofs W)
          ((so + SW : Nat) : Int) ((dofs + W : Nat) : Int) (W : Int) (SW : Int) (W : Int) := by
      simp only [blitRows]
      rw [hcast1, hcast2, hcast3,
        i32_wrap_coe hsoW, i32_wrap_coe hdoW, i32_wrap_coe hsoSW,
        i32_as_usize_coe (show so < USIZE by simp only [USIZE]; omega),
        i32_as_usize_coe (show so + W < USIZE by simp only [USIZE]; omega),
        i32_as_usize_coe (show dofs < USIZE by simp only [USIZE]; omega),
        i32_as_usize_coe (show dofs + W < USIZE by simp only [USIZE]; omega)]
      rw [if_pos (by omega :
        so ≤ so + W ∧ so + W ≤ src.length ∧ dofs ≤ dofs + W ∧
          dofs + W ≤ dst.length ∧ so + W - so = dofs + W - dofs)]
      have hcnt : dofs + W - dofs = W := by omega
      rw [hcnt]
    have hdl' : (copyRun src dst so dofs W).length < 2147483648 := by
      rw [copyRun_length]; exact hdl
    obtain ⟨res, hres, hlen, hpt⟩ :=
      ih src (copyRun src dst so dofs W) (so + SW) (dofs + W) W SW hW hWSW
        (by omega) (by rw [copyRun_length]; omega) hsl hdl'
    refine ⟨res, by rw [hstep]; exact hres, by rw [hlen, copyRun_length], ?_⟩
    intro j
    rw [hpt j]
    by_cases hj : dofs ≤ j ∧ j < dofs + (n + 1) * W
    · rw [if_pos hj]
      by_cases hj2 : dofs + W ≤ j
      · rw [if_pos (by omega)]
        congr 1
        have hd1 : j - (dofs + W) = j - dofs - W := by omega
        rw [hd1]
        have hdiv : (j - dofs) / W = (j - dofs - W) / W + 1 :=
          Nat.div_eq_sub_div hW (by omega)
        have hmod : (j - dofs) % W = (j - dofs - W) % W :=
          Nat.mod_eq_sub_mod (by omega)
        rw [hdiv, hmod]
        ring
      · rw [if_neg (by omega)]
        rw [copyRun_getElem? W src dst so dofs hrow_s hrow_d j, if_pos (by omega)]
        congr 1
        have hlt : j - dofs < W := by omega
        rw [Nat.div_eq_of_lt hlt, Nat.mod_eq_of_lt hlt]
        omega
    · rw [if_neg hj, if_neg (by omega)]
      rw [copyRun_getElem? W src dst so dofs hrow_s hrow_d j, if_neg (by omega)]

end MTerm

namespace MTerm

theorem i32_wrap_zero : i32_wrap (0 : Int) = 0 := by decide

theorem usize_as_i32_zero : usize_as_i32 0 = 0 := by decide

theorem blitAxis_full (S D : Nat) (hS : S < 2147483648) (hDS : D ≤ S) :
    blitAxis 0 (S : Int) 0 (D : Int) (S : Int) = (0, 0, (D : Int)) := by
  simp only [blitAxis]
  norm_num [i32_wrap_coe hS]
  exact hDS

theorem blitAxis_deg (sw0 full : Int) : (blitAxis 0 sw0 0 0 full).2.2 ≤ 0 := by
  simp only [blitAxis]
  norm_num

theorem blit_full_reduce (src dst : List Nat) (SW SH DW DH : Nat)
    (hSW : SW < 2147483648) (hSH : SH < 2147483648)
    (hDW : DW < 2147483648) (hDH : DH < 2147483648)
    (hW : DW ≤ SW) (hH : DH ≤ SH) (hWpos : 0 < DW) (hHpos : 0 < DH) :
    blit src dst
      ⟨BlitRect.new 0 0 SW SH, BlitRect.new 0 0 DW DH,
       BlitRect.new 0 0 SW SH, BlitRect.new 0 0 DW DH⟩ =
    blitRows DH src dst 0 0 (DW : Int) (SW : Int) (DW : Int) := by
  unfold blit
  unfold BlitRect.new
  rw [usize_as_i32_eq_of_lt hSW, usize_as_i32_eq_of_lt hSH,
    usize_as_i32_eq_of_lt hDW, usize_as_i32_eq_of_lt hDH]
  simp only []
  rw [blitAxis_full SW DW hSW hW, blitAxis_full SH DH hSH hH]
  simp only []
  rw [if_pos ⟨by exact_mod_cast hWpos, by exact_mod_cast hHpos⟩]
  norm_num [i32_wrap_zero]

theorem blit_deg (src dst : List Nat) (SW SH PW PH DW DH : Nat)
    (h : DW = 0 ∨ DH = 0) :
    blit src dst
      ⟨BlitRect.new 0 0 SW SH, BlitRect.new 0 0 PW PH,
       BlitRect.new 0 0 SW SH, BlitRect.new 0 0 DW DH⟩ = some dst := by
  unfold blit
  unfold BlitRect.new
  dsimp only []
  rw [if_neg ?hc]
  case hc =>
    rintro ⟨h1, h2⟩
    cases h with
    | inl h0 =>
      subst h0
      rw [usize_as_i32_zero] at h1
      exact absurd h1 (not_lt.mpr (blitAxis_deg _ _))
    | inr h0 =>
      subst h0
      rw [usize_as_i32_zero] at h2
      exact absurd h2 (not_lt.mpr (blitAxis_deg _ _))

end MTerm

namespace MTerm

theorem fillRows_lengths : ∀ (rows : Nat) (f b t : List Nat)
    (i stride w : Nat) (c : Char) (f' b' t' : List Nat),
    fillRows rows f b t i stride w c = some (f', b', t') →
    f'.length = f.length ∧ b'.length = b.length ∧ t'.length = t.length := by
  intro rows
  induction rows with
  | zero =>
    intro f b t i stride w c f' b' t' h
    simp only [fillRows, Option.some.injEq, Prod.mk.injEq] at h
    obtain ⟨rfl, rfl, rfl⟩ := h
    exact ⟨rfl, rfl, rfl⟩
  | succ n ih =>
    intro f b t i stride w c f' b' t' h
    simp only [fillRows] at h
    split at h
    · obtain ⟨h1, h2, h3⟩ := ih _ _ _ _ _ _ _ _ _ _ h
      rw [setRun_length] at h1 h2 h3
      exact ⟨h1, h2, h3⟩
    · exact absurd h (by simp)

theorem blit_length (src dst : List Nat) (ops : BlitOps) (res : List Nat)
    (h : blit src dst ops = some res) : res.length = dst.length := by
  unfold blit at h
  dsimp only [] at h
  split at h
  · exact blitRows_length _ _ _ _ _ _ _ _ _ h
  · injection h with h
    rw [← h]

theorem draw_char_shape (img : Image) (px py : Int) (c : Char) (img' : Image)
    (h : img.draw_char px py c = some img') : img'.shape = img.shape := by
  unfold Image.draw_char at h
  split at h
  · split at h
    · split at h
      · injection h with h
        rw [← h]
        simp [Image.shape, List.length_set]
      · exact absurd h (by simp)
    · injection h with h
      rw [← h]
  · injection h with h
    rw [← h]

theorem draw_string_shape (img : Image) (px py : Int) (text : List Nat)
    (ink paper : Nat) (img' : Image)
    (h : img.draw_string px py text ink paper = some img') :
    img'.shape = img.shape := by
  unfold Image.draw_string at h
  repeat' split at h
  all_goals first
    | exact Option.noConfusion h
    | (injection h with h; rw [← h];
       try simp [Image.shape, setRun_length, writeRun_length])

theorem draw_rect_filled_shape (img : Image) (px py : Int)
    (width height : Nat) (c : Char) (img' : Image)
    (h : img.draw_rect_filled px py width height c = some img') :
    img'.shape = img.shape := by
  unfold Image.draw_rect_filled at h
  repeat' split at h
  all_goals first
    | exact Option.noConfusion h
    | (rename_i heq
       obtain ⟨h1, h2, h3⟩ := fillRows_lengths _ _ _ _ _ _ _ _ _ _ _ heq
       injection h with h
       rw [← h]
       simp [Image.shape, h1, h2, h3])
    | (injection h with h; rw [← h])

theorem clear_shape (img : Image) (ink paper : Nat) (img' : Image)
    (h : img.clear ink paper = some img') : img'.shape = img.shape :=
  draw_rect_filled_shape _ _ _ _ _ _ _ h

theorem draw_rect_shape (img : Image) (px py : Int) (width height : Nat)
    (c : Char) (img' : Image)
    (h : img.draw_rect px py width height c = some img') :
    img'.shape = img.shape := by
  unfold Image.draw_rect at h
  split at h
  · exact draw_rect_filled_shape _ _ _ _ _ _ _ h
  · obtain ⟨img1, h1, h⟩ := Option.bind_eq_some.mp h
    obtain ⟨img2, h2, h⟩ := Option.bind_eq_some.mp h
    obtain ⟨img3, h3, h⟩ := Option.bind_eq_some.mp h
    exact ((draw_rect_filled_shape _ _ _ _ _ _ _ h).trans
      ((draw_rect_filled_shape _ _ _ _ _ _ _ h3).trans
        ((draw_rect_filled_shape _ _ _ _ _ _ _ h2).trans
          (draw_rect_filled_shape _ _ _ _ _ _ _ h1))))

theorem present_blit_shape (p : PresentInput) (px py : Int)
    (dst_width dst_height : Nat) (image : Image) (q : PresentInput)
    (h : p.blit px py dst_width dst_height image = some q) :
    q.shape = p.shape := by
  unfold PresentInput.blit at h
  obtain ⟨f, hf, h2⟩ := Option.bind_eq_some.mp h
  clear h
  obtain ⟨b, hb, h3⟩ := Option.bind_eq_some.mp h2
  clear h2
  obtain ⟨t, ht, h4⟩ := Option.bind_eq_some.mp h3
  clear h3
  have lf : f.length = p.fore_image.length := blit_length _ _ _ _ hf
  have lb : b.length = p.back_image.length := blit_length _ _ _ _ hb
  have lt2 : t.length = p.text_image.length := blit_length _ _ _ _ ht
  clear hf hb ht
  injection h4 with h4
  subst h4
  simp [PresentInput.shape, lf, lb, lt2]

end MTerm

namespace MTerm

/-- Claim C1: blitting a full 5x5 source onto a 3x3 destination at anchor
(-2,-2) is claimed to copy the bottom-right 3x3 of the source into the
top-left of the destination.  The code instead computes the destination row
index `dy * dst.w + dx = -8`, casts it to `usize` and panics on the slice
bounds check (the negative-anchor clip in `blit` is guarded on
`src_blit.x/y`, which callers always set to 0, instead of `dst_blit.x/y`).
Both plausible destination-rectangle sizes for "blitting the full source"
(5x5 and 3x3) panic; `none` models the panic. -/
theorem blit_negative_anchor_panics :
    PresentInput.blit
      ⟨3, 3, List.replicate 9 0, List.replicate 9 0, List.replicate 9 0⟩
      (-2) (-2) 5 5
      ⟨5, 5, List.range 25, (List.range 25).map (fun v => v + 100),
       (List.range 25).map (fun v => v + 200)⟩ = none ∧
    PresentInput.blit
      ⟨3, 3, List.replicate 9 0, List.replicate 9 0, List.replicate 9 0⟩
      (-2) (-2) 3 3
      ⟨5, 5, List.range 25, (List.range 25).map (fun v => v + 100),
       (List.range 25).map (fun v => v + 200)⟩ = none := by
  exact ⟨by decide, by decide⟩

/-- Claim C2: the spec claims every drawing/blitting operation is total
over all integer anchors.  Two counter-witnesses on well-formed buffers:
`draw_string` at x = -5 with a 2-byte text on a 3x1 buffer wraps the
clipped width to 3 and panics indexing byte 2 of the text, and `blit` at
anchor (-1,-1) computes a negative destination index and panics on the
slice bounds check.  `none` models the panic. -/
theorem draw_string_and_blit_can_panic :
    Image.draw_string (Image.new 3 1) (-5) 0 [97, 98] 7 8 = none ∧
    PresentInput.blit
      ⟨2, 2, List.replicate 4 0, List.replicate 4 0, List.replicate 4 0⟩
      (-1) (-1) 4 4
      ⟨4, 4, List.range 16, List.range 16, List.range 16⟩ = none := by
  exact ⟨by decide, by decide⟩

/-- Claim C3: `draw_string` is claimed to truncate from whichever side is
visible, so "abc" at x = -1 should show the tail "bc" at columns 0-1, and a
run fully off-buffer (y = -1) should leave the buffer unchanged.  The code
instead always copies text bytes starting from index 0 (drawing the head
"ab" at columns 0-1), and ignores the clipped height, drawing at row 0 for
a negative y anchor.  This theorem evaluates the code at both failing
inputs (buffer `Image.new 3 1`, ink 7, paper 8, text bytes of "abc"/"a"). -/
theorem draw_string_negative_anchor_misdraws :
    Image.draw_string (Image.new 3 1) (-1) 0 [97, 98, 99] 7 8 =
      some ⟨3, 1, [7, 7, 0], [8, 8, 0], [97, 98, 0]⟩ ∧
    Image.draw_string (Image.new 3 1) 0 (-1) [97] 7 8 =
      some ⟨3, 1, [7, 0, 0], [8, 0, 0], [97, 0, 0]⟩ := by
  exact ⟨by decide, by decide⟩

/-- Claim C7: for `width < 3 ∨ height < 3`, `draw_rect` produces exactly
the state `draw_rect_filled` produces with the same arguments, and
concretely `draw_rect (0,0) 2 2` on a fresh 10x10 buffer sets exactly the
four cells with `x < 2 ∧ y < 2` (see `borderDegenerate`). -/
theorem draw_rect_degenerate_eq_filled :
    (∀ (img : Image) (px py : Int) (width height : Nat) (c : Char),
      width < 3 ∨ height < 3 →
      img.draw_rect px py width height c =
        img.draw_rect_filled px py width height c) ∧
    Image.draw_rect (Image.new 10 10) 0 0 2 2 ⟨9, 5, 6⟩ = some borderDegenerate ∧
    Image.draw_rect_filled (Image.new 10 10) 0 0 2 2 ⟨9, 5, 6⟩ =
      some borderDegenerate := by
  refine ⟨?_, by decide, by decide⟩
  intro img px py width height c hdeg
  unfold Image.draw_rect
  rw [if_pos hdeg]

theorem draw_rect_degenerate_eq_filled_witness :
    Image.draw_rect (Image.new 4 4) 1 1 2 5 ⟨1, 2, 3⟩ =
      Image.draw_rect_filled (Image.new 4 4) 1 1 2 5 ⟨1, 2, 3⟩ :=
  draw_rect_degenerate_eq_filled.1 (Image.new 4 4) 1 1 2 5 ⟨1, 2, 3⟩
    (Or.inl (by norm_num))

/-- Claim C8: `draw_char` at any point with `x < 0`, `y < 0`, `x ≥ width`
or `y ≥ height` leaves the buffer unchanged (the hypotheses bound the
coordinates to the `i32` range of the source's `Point` type). -/
theorem draw_char_out_of_bounds_noop (img : Image) (px py : Int) (c : Char)
    (hx0 : -2147483648 ≤ px) (hx1 : px < 2147483648)
    (hy0 : -2147483648 ≤ py) (hy1 : py < 2147483648)
    (h : px < 0 ∨ py < 0 ∨ (img.width : Int) ≤ px ∨ (img.height : Int) ≤ py) :
    img.draw_char px py c = some img := by
  unfold Image.draw_char
  by_cases hpos : 0 ≤ px ∧ 0 ≤ py
  · rw [if_pos hpos]
    have hxe : i32_as_usize px = px.toNat :=
      i32_as_usize_toNat hpos.1 (by simp only [USIZE]; omega)
    have hye : i32_as_usize py = py.toNat :=
      i32_as_usize_toNat hpos.2 (by simp only [USIZE]; omega)
    have hcoords : img.coords_to_index (i32_as_usize px) (i32_as_usize py) = none := by
      unfold Image.coords_to_index
      rw [hxe, hye, if_neg]
      rintro ⟨hb1, hb2⟩
      omega
    rw [hcoords]
  · rw [if_neg hpos]

theorem draw_char_out_of_bounds_noop_witness :
    Image.draw_char (Image.new 3 2) (-1) 0 ⟨65, 1, 2⟩ = some (Image.new 3 2) :=
  draw_char_out_of_bounds_noop (Image.new 3 2) (-1) 0 ⟨65, 1, 2⟩
    (by norm_num) (by norm_num) (by norm_num) (by norm_num)
    (Or.inl (by norm_num))

/-- Claim C9: `load_font_image` fails exactly when the image data cannot
be decoded or a cell dimension `W/16`, `H/16` is zero; on success the
returned `FontData` has width `W/16` and height `H/16`. -/
theorem load_font_image_contract :
    load_font_image none = Except.error FontError.badFont ∧
    (∀ (W H : Nat) (data : List Nat), W / 16 = 0 ∨ H / 16 = 0 →
      load_font_image (some (W, H, data)) = Except.error FontError.badFont) ∧
    (∀ (W H : Nat) (data : List Nat), W / 16 ≠ 0 → H / 16 ≠ 0 →
      load_font_image (some (W, H, data)) =
        Except.ok ⟨data, W / 16, H / 16⟩) := by
  refine ⟨rfl, ?_, ?_⟩
  · intro W H data h
    unfold load_font_image
    dsimp only []
    rw [if_pos h]
  · intro W H data h1 h2
    unfold load_font_image
    dsimp only []
    rw [if_neg (by tauto)]

theorem load_font_image_contract_witness :
    load_font_image (some (32, 48, [])) = Except.ok ⟨[], 2, 3⟩ ∧
    load_font_image (some (8, 48, [])) = Except.error FontError.badFont :=
  ⟨load_font_image_contract.2.2 32 48 [] (by norm_num) (by norm_num),
   load_font_image_contract.2.1 8 48 [] (Or.inl (by norm_num))⟩

end MTerm

namespace MTerm

/-- Claim C5: in each scheduler iteration the redraw event invokes
`render()` exactly once when the application's present step returned
`Changed` and zero times when it returned `NoChanges`; consequently a span
of n iterations that all return `NoChanges` performs 0 render calls, and a
span with exactly one `Changed` iteration performs exactly 1. -/
theorem render_count_matches_changed (pr : Nat → PresentResult)
    (outcome : Nat → RenderOutcome) (a n : Nat) :
    (∀ oc : RenderOutcome, (redraw_requested PresentResult.Changed oc).1 = 1) ∧
    (∀ oc : RenderOutcome, (redraw_requested PresentResult.NoChanges oc).1 = 0) ∧
    ((∀ i, i < n → pr (a + i) = PresentResult.NoChanges) →
      span_renders pr outcome a n = 0) ∧
    (∀ j, j < n → pr (a + j) = PresentResult.Changed →
      (∀ i, i < n → i ≠ j → pr (a + i) = PresentResult.NoChanges) →
      span_renders pr outcome a n = 1) := by
  have hzero : ∀ m : Nat,
      (∀ i, i < m → pr (a + i) = PresentResult.NoChanges) →
      span_renders pr outcome a m = 0 := by
    intro m
    induction m with
    | zero => intro _; rfl
    | succ k ih =>
      intro hall
      show span_renders pr outcome a k +
        (redraw_requested (pr (a + k)) (outcome (a + k))).1 = 0
      rw [hall k (by omega), ih (fun i hi => hall i (by omega))]
      rfl
  have hone : ∀ m : Nat, ∀ j, j < m → pr (a + j) = PresentResult.Changed →
      (∀ i, i < m → i ≠ j → pr (a + i) = PresentResult.NoChanges) →
      span_renders pr outcome a m = 1 := by
    intro m
    induction m with
    | zero => intro j hj; exact absurd hj (Nat.not_lt_zero j)
    | succ k ih =>
      intro j hj hc hrest
      show span_renders pr outcome a k +
        (redraw_requested (pr (a + k)) (outcome (a + k))).1 = 1
      by_cases hjk : j = k
      · subst hjk
        rw [hc, hzero j (fun i hi => hrest i (by omega) (by omega))]
        rfl
      · rw [hrest k (by omega) (fun hk => hjk hk.symm),
          ih j (by omega) hc (fun i hi hij => hrest i (by omega) hij)]
        rfl
  exact ⟨fun oc => rfl, fun oc => rfl, hzero n, hone n⟩

theorem render_count_matches_changed_witness :
    span_renders (fun _ => PresentResult.NoChanges)
      (fun _ => RenderOutcome.ok) 0 3 = 0 ∧
    span_renders (fun i => if i = 1 then PresentResult.Changed
      else PresentResult.NoChanges) (fun _ => RenderOutcome.ok) 0 3 = 1 :=
  ⟨(render_count_matches_changed _ _ 0 3).2.2.1 (fun i _ => rfl),
   (render_count_matches_changed _ _ 0 3).2.2.2 1 (by norm_num) rfl
     (fun i _ hij => by simp only [Nat.zero_add]; rw [if_neg hij])⟩

/-- Claim C6: `Image.new W H` creates three arrays of length `W * H`
(whenever the `usize` product does not overflow), and every operation
(`clear`, `draw_char`, `draw_string`, `draw_rect`, `draw_rect_filled`,
`blit`) that returns normally preserves the buffer's `shape`: its width,
height, and all three array lengths. -/
theorem image_invariant_preserved :
    (∀ W H : Nat, W * H < USIZE →
      (Image.new W H).width = W ∧ (Image.new W H).height = H ∧
      (Image.new W H).fore_image.length = W * H ∧
      (Image.new W H).back_image.length = W * H ∧
      (Image.new W H).text_image.length = W * H) ∧
    (∀ (img : Image) (ink paper : Nat) (img' : Image),
      img.clear ink paper = some img' → img'.shape = img.shape) ∧
    (∀ (img : Image) (px py : Int) (c : Char) (img' : Image),
      img.draw_char px py c = some img' → img'.shape = img.shape) ∧
    (∀ (img : Image) (px py : Int) (text : List Nat) (ink paper : Nat)
      (img' : Image),
      img.draw_string px py text ink paper = some img' →
        img'.shape = img.shape) ∧
    (∀ (img : Image) (px py : Int) (width height : Nat) (c : Char)
      (img' : Image),
      img.draw_rect px py width height c = some img' →
        img'.shape = img.shape) ∧
    (∀ (img : Image) (px py : Int) (width height : Nat) (c : Char)
      (img' : Image),
      img.draw_rect_filled px py width height c = some img' →
        img'.shape = img.shape) ∧
    (∀ (p : PresentInput) (px py : Int) (dw dh : Nat) (image : Image)
      (q : PresentInput),
      p.blit px py dw dh image = some q → q.shape = p.shape) := by
  refine ⟨?_, clear_shape, draw_char_shape, draw_string_shape,
    draw_rect_shape, draw_rect_filled_shape, present_blit_shape⟩
  intro W H h
  refine ⟨rfl, rfl, ?_, ?_, ?_⟩ <;>
    simp [Image.new, List.length_replicate, usize_mul_eq h]

theorem image_invariant_preserved_witness :
    (Image.new 2 2).fore_image.length = 2 * 2 :=
  (image_invariant_preserved.1 2 2 (by norm_num [USIZE])).2.2.1

end MTerm

namespace MTerm

theorem tile_eq_topLeft (W H SW SH : Nat) (hWpos : 0 < W) (hW : W ≤ SW)
    (hH : H ≤ SH) (s d r : List Nat)
    (hs : s.length = SW * SH) (hd : d.length = W * H)
    (hpt : ∀ j : Nat, r[j]? =
      if 0 ≤ j ∧ j < 0 + H * W
      then s[0 + ((j - 0) / W) * SW + (j - 0) % W]? else d[j]?) :
    r = topLeftGrid W H SW s := by
  have hmul : H * W = W * H := Nat.mul_comm _ _
  apply List.ext_getElem?
  intro j
  rw [hpt j]
  unfold topLeftGrid
  rw [List.getElem?_map]
  by_cases hj : j < H * W
  · rw [if_pos ⟨Nat.zero_le j, by omega⟩, List.getElem?_range hj]
    simp only [Nat.sub_zero, Nat.zero_add, Option.map_some']
    have hdivH : j / W < H := Nat.div_lt_of_lt_mul (by omega)
    have hmod : j % W < W := Nat.mod_lt _ hWpos
    have e3 : (j / W + 1) * SW ≤ H * SW := Nat.mul_le_mul_right SW (by omega)
    have e4 : (j / W + 1) * SW = j / W * SW + SW := by ring
    have e5 : H * SW ≤ SW * SH := by
      rw [Nat.mul_comm H SW]
      exact Nat.mul_le_mul_left SW hH
    have hidx : j / W * SW + j % W < s.length := by omega
    rw [List.getD_eq_getElem?_getD, List.getElem?_eq_getElem hidx]
    rfl
  · rw [if_neg (by omega)]
    have h1 : (List.range (H * W))[j]? = none :=
      List.getElem?_eq_none (by rw [List.length_range]; omega)
    rw [h1, Option.map_none', List.getElem?_eq_none (by omega)]
theorem tile_eq_src (W H : Nat) (s d r : List Nat)
    (hs : s.length = W * H) (hd : d.length = W * H)
    (hpt : ∀ j : Nat, r[j]? =
      if 0 ≤ j ∧ j < 0 + H * W
      then s[0 + ((j - 0) / W) * W + (j - 0) % W]? else d[j]?) : r = s := by
  have hmul : H * W = W * H := Nat.mul_comm _ _
  apply List.ext_getElem?
  intro j
  rw [hpt j]
  by_cases hj : j < H * W
  · rw [if_pos ⟨Nat.zero_le j, by omega⟩]
    congr 1
    simp only [Nat.sub_zero, Nat.zero_add]
    rw [Nat.mul_comm (j / W) W]
    exact Nat.div_add_mod j W
  · rw [if_neg (by omega), List.getElem?_eq_none (by omega),
      List.getElem?_eq_none (by omega)]

/-- Claim C4 counterexample: for equal-sized buffers of width 2^31 the
`usize as i32` truncation in `BlitRect::new` turns the width negative, the
copied extent becomes non-positive, and `blit_screen` returns the
destination unchanged instead of a copy of the source: here an
all-ones source leaves an all-zeros destination untouched. -/
theorem blit_screen_truncates_at_i32_boundary :
    PresentInput.blit_screen
      ⟨2147483648, 1, List.replicate 2147483648 0, List.replicate 2147483648 0,
       List.replicate 2147483648 0⟩
      ⟨2147483648, 1, List.replicate 2147483648 1, List.replicate 2147483648 1,
       List.replicate 2147483648 1⟩ =
      some ⟨2147483648, 1, List.replicate 2147483648 0,
        List.replicate 2147483648 0, List.replicate 2147483648 0⟩ ∧
    List.replicate 2147483648 (0 : Nat) ≠ List.replicate 2147483648 (1 : Nat) := by
  constructor
  · rfl
  · intro hEq
    have h0 : (List.replicate 2147483648 (0 : Nat))[0]? =
        (List.replicate 2147483648 (1 : Nat))[0]? := by rw [hEq]
    rw [List.getElem?_replicate_of_lt (by norm_num),
      List.getElem?_replicate_of_lt (by norm_num)] at h0
    exact absurd h0 (by simp)

/-- Claim C4 (amended): for every pair of equal-sized well-formed buffers
whose cell count `width * height` is below 2^31 (so the dimensions survive
the internal `usize as i32` casts), `blit_screen` makes the destination's
three arrays element-for-element equal to the source's. -/
theorem blit_screen_copies_equal_size (p : PresentInput) (img : Image)
    (hw : img.width = p.width) (hh : img.height = p.height)
    (hwfp : p.wf) (hwfi : img.wf)
    (hsize : p.width * p.height < 2147483648) :
    p.blit_screen img =
      some ⟨p.width, p.height, img.fore_image, img.back_image,
        img.text_image⟩ := by
  obtain ⟨pf, pb, pt⟩ := hwfp
  obtain ⟨gf, gb, gt⟩ := hwfi
  rw [hw, hh] at gf gb gt
  unfold PresentInput.blit_screen PresentInput.blit
  dsimp only []
  rw [hw, hh]
  by_cases hdeg : p.width = 0 ∨ p.height = 0
  · have hL : p.width * p.height = 0 := by
      rcases hdeg with h | h <;> simp [h]
    have hf0 : p.fore_image = [] := List.length_eq_zero.mp (by omega)
    have hb0 : p.back_image = [] := List.length_eq_zero.mp (by omega)
    have ht0 : p.text_image = [] := List.length_eq_zero.mp (by omega)
    have hgf0 : img.fore_image = [] := List.length_eq_zero.mp (by omega)
    have hgb0 : img.back_image = [] := List.length_eq_zero.mp (by omega)
    have hgt0 : img.text_image = [] := List.length_eq_zero.mp (by omega)
    rw [blit_deg _ _ _ _ _ _ _ _ hdeg, blit_deg _ _ _ _ _ _ _ _ hdeg,
      blit_deg _ _ _ _ _ _ _ _ hdeg]
    rw [hf0, hb0, ht0, hgf0, hgb0, hgt0]
    rfl
  · push_neg at hdeg
    obtain ⟨hW0, hH0⟩ := hdeg
    have hWpos : 0 < p.width := Nat.pos_of_ne_zero hW0
    have hHpos : 0 < p.height := Nat.pos_of_ne_zero hH0
    have hW1 : p.width * 1 ≤ p.width * p.height :=
      Nat.mul_le_mul_left p.width hHpos
    rw [Nat.mul_one] at hW1
    have hW31 : p.width < 2147483648 := by omega
    have hH1 : 1 * p.height ≤ p.width * p.height :=
      Nat.mul_le_mul_right p.height hWpos
    rw [Nat.one_mul] at hH1
    have hH31 : p.height < 2147483648 := by omega
    have hmul : p.height * p.width = p.width * p.height := Nat.mul_comm _ _
    rw [blit_full_reduce img.fore_image p.fore_image p.width p.height p.width
        p.height hW31 hH31 hW31 hH31 le_rfl le_rfl hWpos hHpos,
      blit_full_reduce img.back_image p.back_image p.width p.height p.width
        p.height hW31 hH31 hW31 hH31 le_rfl le_rfl hWpos hHpos,
      blit_full_reduce img.text_image p.text_image p.width p.height p.width
        p.height hW31 hH31 hW31 hH31 le_rfl le_rfl hWpos hHpos]
    obtain ⟨rf, hrf, hlf, hptf⟩ := blitRows_tile p.height img.fore_image
      p.fore_image 0 0 p.width p.width hWpos le_rfl (by omega) (by omega)
      (by omega) (by omega)
    obtain ⟨rb, hrb, hlb, hptb⟩ := blitRows_tile p.height img.back_image
      p.back_image 0 0 p.width p.width hWpos le_rfl (by omega) (by omega)
      (by omega) (by omega)
    obtain ⟨rt, hrt, hlt, hptt⟩ := blitRows_tile p.height img.text_image
      p.text_image 0 0 p.width p.width hWpos le_rfl (by omega) (by omega)
      (by omega) (by omega)
    simp only [Nat.cast_zero] at hrf hrb hrt
    rw [hrf, hrb, hrt]
    have hef : rf = img.fore_image :=
      tile_eq_src p.width p.height img.fore_image p.fore_image rf gf pf hptf
    have heb : rb = img.back_image :=
      tile_eq_src p.width p.height img.back_image p.back_image rb gb pb hptb
    have het : rt = img.text_image :=
      tile_eq_src p.width p.height img.text_image p.text_image rt gt pt hptt
    rw [hef, heb, het]
    rfl

end MTerm

namespace MTerm

theorem blit_screen_copies_equal_size_witness :
    PresentInput.blit_screen
      ⟨2, 2, List.replicate 4 0, List.replicate 4 0, List.replicate 4 0⟩
      ⟨2, 2, [1, 2, 3, 4], [5, 6, 7, 8], [9, 10, 11, 12]⟩ =
      some ⟨2, 2, [1, 2, 3, 4], [5, 6, 7, 8], [9, 10, 11, 12]⟩ :=
  blit_screen_copies_equal_size _ _ rfl rfl ⟨rfl, rfl, rfl⟩ ⟨rfl, rfl, rfl⟩
    (by norm_num)

end MTerm

namespace MTerm

/-- Claim C10 counterexample: a 2^31-wide single-row source satisfies
"source dimensions ≥ destination dimensions" for a 1x1 destination, but the
`usize as i32` truncation makes the copied extent negative and
`blit_screen` leaves the destination untouched, so destination cell (0,0)
is not overwritten with source cell (0,0). -/
theorem blit_screen_subgrid_fails_at_i32_boundary :
    PresentInput.blit_screen ⟨1, 1, [0], [0], [0]⟩
      ⟨2147483648, 1, List.replicate 2147483648 1, List.replicate 2147483648 1,
       List.replicate 2147483648 1⟩ = some ⟨1, 1, [0], [0], [0]⟩ ∧
    (1 : Nat) ≤ 2147483648 ∧ (1 : Nat) ≤ 1 ∧
    ([0] : List Nat)[0]? ≠ (List.replicate 2147483648 (1 : Nat))[0]? := by
  refine ⟨rfl, by norm_num, le_rfl, ?_⟩
  rw [List.getElem?_replicate_of_lt (by norm_num)]
  decide

/-- Claim C10 (amended): for every well-formed source at least as large as
the destination on both axes, with the source cell count below 2^31,
`blit_screen` returns normally and overwrites the whole destination with
the top-left destination-sized sub-grid of the source (`topLeftGrid`);
the second conjunct states that cell (x,y) of that sub-grid is exactly the
source cell at the same (x,y). -/
theorem blit_screen_copies_top_left_subgrid (p : PresentInput) (img : Image)
    (hw : p.width ≤ img.width) (hh : p.height ≤ img.height)
    (hwfp : p.wf) (hwfi : img.wf)
    (hsize : img.width * img.height < 2147483648) :
    p.blit_screen img =
      some ⟨p.width, p.height,
        topLeftGrid p.width p.height img.width img.fore_image,
        topLeftGrid p.width p.height img.width img.back_image,
        topLeftGrid p.width p.height img.width img.text_image⟩ ∧
    (∀ l : List Nat, l.length = img.width * img.height →
      ∀ x y : Nat, x < p.width → y < p.height →
      (topLeftGrid p.width p.height img.width l)[y * p.width + x]? =
        l[y * img.width + x]?) := by
  obtain ⟨pf, pb, pt⟩ := hwfp
  obtain ⟨gf, gb, gt⟩ := hwfi
  constructor
  · unfold PresentInput.blit_screen PresentInput.blit
    dsimp only []
    by_cases hdeg : p.width = 0 ∨ p.height = 0
    · have hL : p.width * p.height = 0 := by
        rcases hdeg with h | h <;> simp [h]
      have hf0 : p.fore_image = [] := List.length_eq_zero.mp (by omega)
      have hb0 : p.back_image = [] := List.length_eq_zero.mp (by omega)
      have ht0 : p.text_image = [] := List.length_eq_zero.mp (by omega)
      have hT : ∀ l : List Nat,
          topLeftGrid p.width p.height img.width l = [] := by
        intro l
        unfold topLeftGrid
        have hz : p.height * p.width = 0 := by
          rw [Nat.mul_comm]
          exact hL
        rw [hz]
        rfl
      rw [blit_deg _ _ _ _ _ _ _ _ hdeg, blit_deg _ _ _ _ _ _ _ _ hdeg,
        blit_deg _ _ _ _ _ _ _ _ hdeg, hf0, hb0, ht0, hT img.fore_image,
        hT img.back_image, hT img.text_image]
      rfl
    · push_neg at hdeg
      obtain ⟨hW0, hH0⟩ := hdeg
      have hWpos : 0 < p.width := Nat.pos_of_ne_zero hW0
      have hHpos : 0 < p.height := Nat.pos_of_ne_zero hH0
      have hIWpos : 0 < img.width := by omega
      have hIHpos : 0 < img.height := by omega
      have hI1 : img.width * 1 ≤ img.width * img.height :=
        Nat.mul_le_mul_left img.width hIHpos
      rw [Nat.mul_one] at hI1
      have hIW31 : img.width < 2147483648 := by omega
      have hI2 : 1 * img.height ≤ img.width * img.height :=
        Nat.mul_le_mul_right img.height hIWpos
      rw [Nat.one_mul] at hI2
      have hIH31 : img.height < 2147483648 := by omega
      have hW31 : p.width < 2147483648 := by omega
      have hH31 : p.height < 2147483648 := by omega
      have hmul : p.height * p.width = p.width * p.height := Nat.mul_comm _ _
      have hA : p.height * img.width = img.width * p.height := Nat.mul_comm _ _
      have hB : img.width * p.height ≤ img.width * img.height :=
        Nat.mul_le_mul_left img.width hh
      have hC : p.width * p.height ≤ img.width * img.height :=
        Nat.mul_le_mul hw hh
      rw [blit_full_reduce img.fore_image p.fore_image img.width img.height
          p.width p.height hIW31 hIH31 hW31 hH31 hw hh hWpos hHpos,
        blit_full_reduce img.back_image p.back_image img.width img.height
          p.width p.height hIW31 hIH31 hW31 hH31 hw hh hWpos hHpos,
        blit_full_reduce img.text_image p.text_image img.width img.height
          p.width p.height hIW31 hIH31 hW31 hH31 hw hh hWpos hHpos]
      obtain ⟨rf, hrf, hlf, hptf⟩ := blitRows_tile p.height img.fore_image
        p.fore_image 0 0 p.width img.width hWpos hw (by omega) (by omega)
        (by omega) (by omega)
      obtain ⟨rb, hrb, hlb, hptb⟩ := blitRows_tile p.height img.back_image
        p.back_image 0 0 p.width img.width hWpos hw (by omega) (by omega)
        (by omega) (by omega)
      obtain ⟨rt, hrt, hlt, hptt⟩ := blitRows_tile p.height img.text_image
        p.text_image 0 0 p.width img.width hWpos hw (by omega) (by omega)
        (by omega) (by omega)
      simp only [Nat.cast_zero] at hrf hrb hrt
      rw [hrf, hrb, hrt]
      rw [tile_eq_topLeft p.width p.height img.width img.height hWpos hw hh
          img.fore_image p.fore_image rf gf pf hptf,
        tile_eq_topLeft p.width p.height img.width img.height hWpos hw hh
          img.back_image p.back_image rb gb pb hptb,
        tile_eq_topLeft p.width p.height img.width img.height hWpos hw hh
          img.text_image p.text_image rt gt pt hptt]
      rfl
  · intro l hl x y hx hy
    have hWpos : 0 < p.width := by omega
    unfold topLeftGrid
    rw [List.getElem?_map]
    have e1 : (y + 1) * p.width = y * p.width + p.width := by ring
    have e2 : (y + 1) * p.width ≤ p.height * p.width :=
      Nat.mul_le_mul_right p.width (by omega)
    have hjr : y * p.width + x < p.height * p.width := by omega
    rw [List.getElem?_range hjr, Option.map_some']
    have hdiv : (y * p.width + x) / p.width = y := by
      rw [Nat.mul_comm y p.width, Nat.mul_add_div hWpos, Nat.div_eq_of_lt hx]
      rfl
    have hmodx : (y * p.width + x) % p.width = x := by
      rw [Nat.mul_comm y p.width, Nat.mul_add_mod, Nat.mod_eq_of_lt hx]
    rw [hdiv, hmodx]
    have e3 : (y + 1) * img.width = y * img.width + img.width := by ring
    have e4 : (y + 1) * img.width ≤ img.height * img.width :=
      Nat.mul_le_mul_right img.width (by omega)
    have e5 : img.height * img.width = img.width * img.height :=
      Nat.mul_comm _ _
    have hidx : y * img.width + x < l.length := by omega
    rw [List.getD_eq_getElem?_getD, List.getElem?_eq_getElem hidx]
    rfl

theorem blit_screen_copies_top_left_subgrid_witness :
    PresentInput.blit_screen
      ⟨2, 2, List.replicate 4 0, List.replicate 4 0, List.replicate 4 0⟩
      ⟨3, 3, List.range 9, (List.range 9).map (fun v => v + 10),
       (List.range 9).map (fun v => v + 20)⟩ =
      some ⟨2, 2, topLeftGrid 2 2 3 (List.range 9),
        topLeftGrid 2 2 3 ((List.range 9).map (fun v => v + 10)),
        topLeftGrid 2 2 3 ((List.range 9).map (fun v => v + 20))⟩ :=
  (blit_screen_copies_top_left_subgrid
    ⟨2, 2, List.replicate 4 0, List.replicate 4 0, List.replicate 4 0⟩
    ⟨3, 3, List.range 9, (List.range 9).map (fun v => v + 10),
     (List.range 9).map (fun v => v + 20)⟩
    (by norm_num) (by norm_num) ⟨rfl, rfl, rfl⟩ ⟨by decide, by decide, by decide⟩
    (by norm_num)).1

end MTerm
